import Mathlib

/-!
Verification of the TailFS two-sided WebDAV gateway
(`tailfs/local.go`, `tailfs/compositefs`, `tailfs/webdavfs/readonly_file.go`).

The Go code is shallowly embedded: Go maps become association lists, the
composite filesystem's mutable state becomes an explicit state record, and
each method becomes a pure function on that state. Where a method calls into
a child filesystem or the WebDAV client, the child/client behaviour is a
function argument, and the composite's operations additionally return the
list of calls they issued to children, so "no child was touched" is a
provable statement about the returned call log.

Helper packages of the repository that the claims depend on but that are not
part of the sources (`util/pathutil`, `tailfs/shared`, the `Permissions`
type) are modelled from the spec, and marked as such in doc comments.
-/

namespace TailFS

/-- Contract-level errors (spec taxonomy in section 7). `notExist` embeds Go's
`os.ErrNotExist`; `pathError` embeds `os.PathError` values built in
`readonly_file.go`; `clientError` stands for arbitrary errors produced by
children or by the WebDAV client. -/
inductive Err where
  | notExist
  | pathError (op : String) (path : String) (msg : String)
  | clientError (n : Nat)
deriving DecidableEq, Repr

/-- Embeds `shared.StaticFileInfo` (field for field: Named, Sized, Moded,
ModTimed, Dir), the value type used for directory-listing metadata. Sizes are
`Int` (Go `int64`), mode bits a `Nat`, and times are modelled as `Nat`
timestamps. -/
structure StaticFileInfo where
  named : String
  sized : Int
  moded : Nat
  modTimed : Nat
  dir : Bool
deriving DecidableEq, Repr

/-- Modelled from the spec: `shared.ReadOnlyDirInfo(name, now)` (the `shared`
package is not among the sources) — a directory `FileInfo` carrying the given
name with the given time as its modified time. The size and mode bits are
not observed by any claim; we use 0 for the size and a nominal directory
mode. -/
def ReadOnlyDirInfo (name : String) (now : Nat) : StaticFileInfo :=
  { named := name, sized := 0, moded := 555, modTimed := now, dir := true }

/-- The `shared.StaticFileInfo` literal the composite builds when it rewraps
a child's `FileInfo` under a new name (stat.go and the root loader in
part_002): same size, mode, mtime and directory bit, the given name. -/
def rewrapInfo (name : String) (fi : StaticFileInfo) : StaticFileInfo :=
  { named := name, sized := fi.sized, moded := fi.moded,
    modTimed := fi.modTimed, dir := fi.dir }

/-- Splits a character list at every `'/'`, accumulating the current
component in reverse (an executable rendering of `strings.Split(p, "/")`). -/
def splitOnSlashAux : List Char → List Char → List String
  | [], acc => [String.mk acc.reverse]
  | c :: cs, acc =>
    if c = '/' then String.mk acc.reverse :: splitOnSlashAux cs []
    else splitOnSlashAux cs (c :: acc)

/-- The slash-separated pieces of a path, empty pieces included. -/
def splitOnSlash (p : String) : List String :=
  splitOnSlashAux p.data []

/-- Modelled from the spec, section 4.1: `pathutil.Split(p)` returns the
slash-separated components of `p` with leading and trailing empty entries
removed. -/
def pathutilSplit (p : String) : List String :=
  (((splitOnSlash p).dropWhile (· = "")).reverse.dropWhile (· = "")).reverse

/-- Modelled from the spec, section 4.1: `pathutil.IsRoot(p)` is true iff `p`
equals the root path. -/
def pathutilIsRoot (p : String) : Bool :=
  p = "/"

/-- Go's `path.Join` applied to the remainder components in
`compositeFileSystem.pathToChild`. On components produced by
`pathutilSplit` (no slashes inside a component) joining is interleaving
with `/`; `path.Join()` of no components is the empty string. -/
def joinComponents (components : List String) : String :=
  String.intercalate "/" components

/-- Lexicographic strict comparison of character lists, the order Go uses on
`string`s; an executable rendering of the standard library's `List.lt`
(whose decision procedure on `String` does not reduce well). -/
def charListLtB : List Char → List Char → Bool
  | [], [] => false
  | [], _ :: _ => true
  | _ :: _, [] => false
  | a :: as, b :: bs =>
    if a < b then true else if b < a then false else charListLtB as bs

/-- Go's `a <= b` on strings: not `b < a`. -/
def strLeB (a b : String) : Bool :=
  !(charListLtB b.data a.data)

/-- Modelled from the spec, section 3: a permission for a share is one of
`None`, `ReadOnly`, `ReadWrite`. -/
inductive Permission where
  | none
  | readOnly
  | readWrite
deriving DecidableEq, Repr

/-- Modelled from the spec, section 3: the `Permissions` object is
function-like: given a share name it returns a `Permission`. -/
def Permissions : Type := String → Permission

/-! ## Association-list model of Go maps -/

/-- `m[k] = v` on a Go map: replace the existing binding for `k` if present,
otherwise add one. -/
def mapSet {α : Type} : List (String × α) → String → α → List (String × α)
  | [], k, v => [(k, v)]
  | (k', v') :: rest, k, v =>
    if k' = k then (k, v) :: rest else (k', v') :: mapSet rest k v

/-- `delete(m, k)` on a Go map. -/
def mapDel {α : Type} (m : List (String × α)) (k : String) : List (String × α) :=
  m.filter (fun p => p.1 ≠ k)

/-- `m[k]` lookup on a Go map. -/
def mapGet {α : Type} : List (String × α) → String → Option α
  | [], _ => none
  | (k', v') :: rest, k => if k' = k then some v' else mapGet rest k

/-- The keys of a Go map modelled as an association list. -/
def keysOf {α : Type} (m : List (String × α)) : List String :=
  m.map Prod.fst

/-- Building a Go map by ranging over a list of entries and assigning each. -/
def mapOfList {α : Type} (l : List (String × α)) : List (String × α) :=
  l.foldl (fun m p => mapSet m p.1 p.2) []

/-! ## Composite filesystem (`tailfs/compositefs`)

`compositeFileSystem` holds a `childrenMap` (Go map name → child) and a
`children` slice sorted by name, rebuilt from the map after every mutation.
The child filesystem type is a parameter `α`; the behaviour of a child's
`Stat`/`OpenFile` and whether it implements `io.Closer` are supplied as
function arguments to the operations that need them. -/

/-- Embeds the `child` struct: a name together with a child filesystem. -/
structure Child (α : Type) where
  name : String
  fs : α
deriving DecidableEq, Repr

/-- The mutable state of a `compositeFileSystem`: the `statChildren` option,
the `childrenMap`, and the name-sorted `children` slice. -/
structure CState (α : Type) where
  statChildren : Bool
  childrenMap : List (String × α)
  children : List (Child α)
deriving DecidableEq, Repr

/-- The order `sort.Sort(childrenByName)` sorts by: ascending name (stated
via the executable comparator; provably equivalent to `a.name ≤ b.name`). -/
def childLE {α : Type} (a b : Child α) : Prop := strLeB a.name b.name = true

instance {α : Type} : DecidableRel (childLE (α := α)) :=
  fun a b => inferInstanceAs (Decidable (strLeB a.name b.name = true))

/-- Embeds `rebuildChildren`: the `children` slice is the map's entries
sorted by name. (Go's `sort.Sort` is unspecified on equal names, but map
keys are distinct, so the sorted sequence is unique.) -/
def rebuildChildren {α : Type} (m : List (String × α)) : List (Child α) :=
  List.insertionSort childLE (m.map (fun p => ⟨p.1, p.2⟩))

/-- Embeds `compositefs.New`: no children, `statChildren` from the options. -/
def newCFS (α : Type) (statChildren : Bool) : CState α :=
  { statChildren := statChildren, childrenMap := [], children := [] }

/-- Embeds `AddChild`: assign the binding in the map and rebuild the slice. -/
def addChild {α : Type} (st : CState α) (name : String) (fs : α) : CState α :=
  let m := mapSet st.childrenMap name fs
  { st with childrenMap := m, children := rebuildChildren m }

/-- Embeds `RemoveChild`. Besides the new state it returns the list of
children on which `Close` was invoked (the displaced child, when it existed
and implements `io.Closer` according to `closable`). -/
def removeChild {α : Type} (closable : α → Bool) (st : CState α) (name : String) :
    CState α × List (Child α) :=
  ({ st with childrenMap := mapDel st.childrenMap name,
             children := rebuildChildren (mapDel st.childrenMap name) },
   match mapGet st.childrenMap name with
   | Option.none => []
   | Option.some fs => if closable fs then [⟨name, fs⟩] else [])

/-- Embeds `SetChildren`: build a fresh map from the given entries, rebuild
the slice, and close every displaced child (the entire previous `children`
slice) that implements `io.Closer`. The closed children are returned. -/
def setChildren {α : Type} (closable : α → Bool) (st : CState α)
    (children : List (String × α)) : CState α × List (Child α) :=
  let m := mapOfList children
  ({ st with childrenMap := m, children := rebuildChildren m },
   st.children.filter (fun c => closable c.fs))

/-- Embeds `GetChild`. -/
def getChild {α : Type} (st : CState α) (name : String) : Option α :=
  mapGet st.childrenMap name

/-- Embeds `pathToChild`: split the name, look the first component up in the
children map, and return the rejoined remainder, whether the path goes
strictly below the child (`onChild`, i.e. more than one component), and the
child. An unknown first component yields `os.ErrNotExist`. (Go indexes
`pathComponents[0]` and would panic on an empty split; WebDAV paths always
have a first component, and the model returns `notExist` there.) -/
def pathToChild {α : Type} (st : CState α) (name : String) :
    Except Err (String × Bool × Child α) :=
  match pathutilSplit name with
  | [] => Except.error Err.notExist
  | first :: rest =>
    match mapGet st.childrenMap first with
    | Option.none => Except.error Err.notExist
    | Option.some fs => Except.ok (joinComponents rest, rest ≠ [], ⟨first, fs⟩)

/-! ### Routed operations

A composite operation is interpreted against child behaviours given as
functions (`stat`, `opn`). Each operation also returns the log of calls it
issued to children, as `(child name, path passed to the child)` pairs, in
order. -/

/-- A record of one call issued to a child filesystem. -/
abbrev ChildCall : Type := String × String

/-- The loop in `compositeFileSystem.Stat`'s root branch (with
`statChildren` set): stat every child's root in slice order, aborting on the
first error, and fold the children's modified times into `fi` — the first
child always overwrites, a later child only if strictly more recent
(`ModTime().After`). -/
def statRootLoop {α : Type} (stat : α → String → Except Err StaticFileInfo)
    (children : List (Child α)) (fi : StaticFileInfo) (isFirst : Bool) :
    Except Err StaticFileInfo × List ChildCall :=
  match children with
  | [] => (Except.ok fi, [])
  | c :: rest =>
    match stat c.fs "/" with
    | Except.error e => (Except.error e, [(c.name, "/")])
    | Except.ok ci =>
      let fi' := if isFirst ∨ ci.modTimed > fi.modTimed
                 then { fi with modTimed := ci.modTimed } else fi
      let (r, log) := statRootLoop stat rest fi' false
      (r, (c.name, "/") :: log)

/-- Embeds `compositeFileSystem.Stat` (stat.go). The root is a read-only
directory stamped with `now` (optionally with the children's latest mtime);
a single-component path with `statChildren` unset is answered synthetically;
otherwise the operation is forwarded to the child with the rejoined
remainder, and a successful child result is rewrapped with the full name. -/
def cfsStat {α : Type} (stat : α → String → Except Err StaticFileInfo)
    (st : CState α) (name : String) (now : Nat) :
    Except Err StaticFileInfo × List ChildCall :=
  if pathutilIsRoot name then
    let fi := ReadOnlyDirInfo name now
    if st.statChildren then statRootLoop stat st.children fi true
    else (Except.ok fi, [])
  else
    match pathToChild st name with
    | Except.error e => (Except.error e, [])
    | Except.ok (path, onChild, c) =>
      if !onChild ∧ !st.statChildren then
        (Except.ok (ReadOnlyDirInfo name now), [])
      else
        match stat c.fs path with
        | Except.error e => (Except.error e, [(c.name, path)])
        | Except.ok fi => (Except.ok (rewrapInfo name fi), [(c.name, path)])

/-- The `LoadChildren` closure of the root `DirFile` built by
`compositeFileSystem.OpenFile`: one `FileInfo` per child in slice order —
from a stat of the child's root when `statChildren` is set (aborting on the
first error), otherwise a synthetic read-only directory info stamped with
`now`. Either way the entry carries the child's name. -/
def loadChildren {α : Type} (stat : α → String → Except Err StaticFileInfo)
    (statChildren : Bool) (children : List (Child α)) (now : Nat) :
    Except Err (List StaticFileInfo) :=
  match children with
  | [] => Except.ok []
  | c :: rest =>
    let childInfo : Except Err StaticFileInfo :=
      if statChildren then
        match stat c.fs "/" with
        | Except.error e => Except.error e
        | Except.ok fi => Except.ok (rewrapInfo c.name fi)
      else Except.ok (ReadOnlyDirInfo c.name now)
    match childInfo with
    | Except.error e => Except.error e
    | Except.ok ci =>
      match loadChildren stat statChildren rest now with
      | Except.error e => Except.error e
      | Except.ok cis => Except.ok (ci :: cis)

/-- The result of `compositeFileSystem.OpenFile`: either the synthetic root
directory (a `shared.DirFile` whose `Readdir` drives `LoadChildren`; the
model records the listing that loader produces) or whatever the child's
`OpenFile` returned. -/
inductive OpenRes (β : Type) where
  | rootDir (di : StaticFileInfo) (listing : Except Err (List StaticFileInfo))
  | childFile (f : β)
deriving Repr

/-- Embeds `compositeFileSystem.OpenFile` (part_002). On the root it stats
itself and returns the `DirFile`; on a single-component child path it asks
the child to open its own root `"/"`; otherwise it forwards the rejoined
remainder. -/
def cfsOpenFile {α β : Type} (stat : α → String → Except Err StaticFileInfo)
    (opn : α → String → Except Err β) (st : CState α) (name : String)
    (now : Nat) : Except Err (OpenRes β) × List ChildCall :=
  if pathutilIsRoot name then
    match cfsStat stat st name now with
    | (Except.error e, log) => (Except.error e, log)
    | (Except.ok di, log) =>
      (Except.ok (OpenRes.rootDir di
          (loadChildren stat st.statChildren st.children now)), log)
  else
    match pathToChild st name with
    | Except.error e => (Except.error e, [])
    | Except.ok (path, onChild, c) =>
      if !onChild then
        match opn c.fs "/" with
        | Except.error e => (Except.error e, [(c.name, "/")])
        | Except.ok f => (Except.ok (OpenRes.childFile f), [(c.name, "/")])
      else
        match opn c.fs path with
        | Except.error e => (Except.error e, [(c.name, path)])
        | Except.ok f => (Except.ok (OpenRes.childFile f), [(c.name, path)])

/-! ## Remote gateway (`fileSystemForRemote`, local.go) -/

/-- Embeds the `writeMethods` set from local.go. -/
def writeMethods (m : String) : Bool :=
  ["PUT", "POST", "COPY", "LOCK", "UNLOCK", "MKCOL", "MOVE", "PROPPATCH"].contains m

/-- The outcome of `fileSystemForRemote.ServeHTTP`: an HTTP error written to
the response, or dispatch of the request to a per-request composite. -/
inductive ServeResult (α : Type) where
  | httpError (status : Nat)
  | dispatch (cfs : CState α)

/-- Embeds `fileSystemForRemote.ServeHTTP` (local.go). For a write-class
method the first path segment is checked against the permissions (None →
404, ReadOnly → 403, ReadWrite falls through). Then a per-request composite
with `StatChildren: true` is populated, via `SetChildren`, with exactly the
installed filesystems whose share has a non-`None` permission, and the
request is dispatched to it. `fileSystems` is the gateway's installed
name → filesystem map; `closable` tells which child filesystems implement
`io.Closer` (irrelevant here: the fresh composite displaces nothing). -/
def serveHTTP {α : Type} (closable : α → Bool) (permissions : Permissions)
    (fileSystems : List (String × α)) (method : String) (urlPath : String) :
    ServeResult α :=
  let dispatch : ServeResult α :=
    let children := fileSystems.filter
      (fun p => !(permissions p.1 = Permission.none : Bool))
    ServeResult.dispatch (setChildren closable (newCFS α true) children).1
  if writeMethods method then
    match permissions ((pathutilSplit urlPath).headD "") with
    | Permission.none => ServeResult.httpError 404
    | Permission.readOnly => ServeResult.httpError 403
    | Permission.readWrite => dispatch
  else dispatch

/-! ## Local gateway (`fileSystemForLocal.SetRemotes`, local.go)

The local gateway holds a top-level composite whose children are per-domain
composites (type `CState β`, where `β` is the remote-filesystem type); a
per-domain composite is itself an `io.Closer`, so at the top level every
child is closable. `newRemoteFS` stands for `webdavfs.New` applied to a
URL. -/

/-- In-place mutation of the child filesystem object bound at `name` (Go
mutates the object returned by `GetChild`, which both views point to): the
binding's value is replaced in the map and in the slice. Only called with
`name` present. -/
def updateChildFS {α : Type} (st : CState α) (name : String) (fs : α) :
    CState α :=
  { st with
    childrenMap := mapSet st.childrenMap name fs,
    children := st.children.map (fun c => if c.name = name then ⟨c.name, fs⟩ else c) }

/-- Embeds `fileSystemForLocal.SetRemotes`: construct a remote filesystem per
URL; fetch the per-domain composite via `GetChild`; when absent, create a
fresh one and install it with `cfs.SetChildren({domain: fresh})` — which
replaces the top-level children wholesale; finally `SetChildren(remotes)` on
the per-domain composite. Returns the new top-level state and the list of
top-level children closed by the call. (`closableRemote` tells which remote
filesystems implement `io.Closer`; it only affects closes inside the
per-domain composite, which are not tracked here.) -/
def setRemotes {β : Type} (newRemoteFS : String → β) (closableRemote : β → Bool)
    (st : CState (CState β)) (domain : String)
    (namesToURLS : List (String × String)) :
    CState (CState β) × List (Child (CState β)) :=
  let remotes : List (String × β) :=
    namesToURLS.map (fun p => (p.1, newRemoteFS p.2))
  match getChild st domain with
  | Option.some domainChild =>
    (updateChildFS st domain (setChildren closableRemote domainChild remotes).1, [])
  | Option.none =>
    let fresh := newCFS β false
    let (st', closedTop) := setChildren (fun _ => true) st [(domain, fresh)]
    (updateChildFS st' domain (setChildren closableRemote fresh remotes).1,
     closedTop)

/-! ## Read-only remote file (`webdavfs/readonly_file.go`)

`readOnlyFile` holds a target name, the `FileInfo` known at open time, an
optionally refreshed `FileInfo`, and an optionally opened byte stream
(`io.ReadCloser`, abstract type `σ`). The WebDAV client is modelled by the
results of its `Stat` and `ReadStream` calls for the file's name;
`translateWebDAVError` (not among the sources) is an arbitrary function
argument. -/

/-- The state of a `readOnlyFile`. -/
structure ROFile (σ : Type) where
  name : String
  initialFI : StaticFileInfo
  fi : Option StaticFileInfo
  readCloser : Option σ
deriving Repr

/-- The WebDAV client, as seen by one file: the result of `client.Stat` and
of `client.ReadStream` on the file's name. -/
structure DavClient (σ : Type) where
  statRes : String → Except Err StaticFileInfo
  readStreamRes : String → Except Err σ

/-- Embeds `statIfNecessary`: when `fi` is still nil, stat the file through
the client (bypassing the stat cache) and latch the result; a client error
is translated. -/
def statIfNecessary {σ : Type} (translate : Err → Err) (client : DavClient σ)
    (f : ROFile σ) : Except Err (ROFile σ) :=
  match f.fi with
  | Option.some _ => Except.ok f
  | Option.none =>
    match client.statRes f.name with
    | Except.error e => Except.error (translate e)
    | Except.ok fi => Except.ok { f with fi := Option.some fi }

/-- `f.fi` after a successful `statIfNecessary` is always set; this reads it
(falling back to the open-time info, as `Stat` does). -/
def curFI {σ : Type} (f : ROFile σ) : StaticFileInfo :=
  f.fi.getD f.initialFI

/-- Go's `io.SeekStart`. -/
def seekStart : Int := 0
/-- Go's `io.SeekCurrent`. -/
def seekCurrent : Int := 1
/-- Go's `io.SeekEnd`. -/
def seekEnd : Int := 2

/-- Embeds `readOnlyFile.Seek`: refresh the `FileInfo` if necessary, then
honor exactly seek-to-end with offset 0 (returning the current size) and
seek-to-start with offset 0 (returning 0); anything else is an
`os.PathError` with "seek not supported". Returns the new offset and the
(possibly stat-refreshed) file state. -/
def roSeek {σ : Type} (translate : Err → Err) (client : DavClient σ)
    (f : ROFile σ) (offset : Int) (whence : Int) :
    Except Err (Int × ROFile σ) :=
  match statIfNecessary translate client f with
  | Except.error e => Except.error e
  | Except.ok f' =>
    if whence = seekEnd ∧ offset = 0 then
      Except.ok ((curFI f').sized, f')
    else if whence = seekStart ∧ offset = 0 then
      Except.ok (0, f')
    else
      Except.error (Err.pathError "seek" (curFI f').named "seek not supported")

/-- Embeds `initReaderIfNecessary` followed by the `ReadCloser.Read` call in
`readOnlyFile.Read`. `streamRead` models one `Read` on the underlying
stream: bytes read, error if any, and the stream's next state. Returns Go's
`(n, err)` pair, the new file state, and whether a `ReadStream` call was
issued against the client. -/
def roRead {σ : Type} (translate : Err → Err) (client : DavClient σ)
    (streamRead : σ → Nat × Option Err × σ) (f : ROFile σ) :
    (Nat × Option Err) × ROFile σ × Bool :=
  match f.readCloser with
  | Option.some s =>
    let r := streamRead s
    ((r.1, r.2.1), { f with readCloser := Option.some r.2.2 }, false)
  | Option.none =>
    match client.readStreamRes f.name with
    | Except.error e => ((0, Option.some (translate e)), f, true)
    | Except.ok s =>
      let r := streamRead s
      ((r.1, r.2.1), { f with readCloser := Option.some r.2.2 }, true)

/-- A sequence of `k` `Read` calls on the same file; returns the final file
state and how many `ReadStream` calls were issued in total. -/
def roReadSeq {σ : Type} (translate : Err → Err) (client : DavClient σ)
    (streamRead : σ → Nat × Option Err × σ) (f : ROFile σ) :
    Nat → ROFile σ × Nat
  | 0 => (f, 0)
  | k + 1 =>
    let r := roRead translate client streamRead f
    let rest := roReadSeq translate client streamRead r.2.1 k
    (rest.1, (if r.2.2 then 1 else 0) + rest.2)

/-- Embeds `readOnlyFile.Close`: when no stream was opened return nil,
otherwise return the stream's `Close` result. The file state is not
modified (the code never clears `ReadCloser`). `streamClose` models the
underlying stream's `Close`; the returned `Bool` records whether it was
invoked. -/
def roClose {σ : Type} (streamClose : σ → Except Err Unit) (f : ROFile σ) :
    Except Err Unit × Bool × ROFile σ :=
  match f.readCloser with
  | Option.none => (Except.ok (), false, f)
  | Option.some s => (streamClose s, true, f)

/-! ## Mutation sequences on a composite -/

/-- One mutation of a composite's children via its SDK methods. -/
inductive Mut (α : Type) where
  | add (name : String) (fs : α)
  | rem (name : String)
  | set (children : List (String × α))

/-- Apply one mutation (discarding the closed-children output). -/
def applyMut {α : Type} (closable : α → Bool) (st : CState α) :
    Mut α → CState α
  | Mut.add name fs => addChild st name fs
  | Mut.rem name => (removeChild closable st name).1
  | Mut.set children => (setChildren closable st children).1

/-- Apply a sequence of mutations, oldest first. -/
def applyMuts {α : Type} (closable : α → Bool) (st : CState α)
    (ms : List (Mut α)) : CState α :=
  ms.foldl (applyMut closable) st

/-! ## Concrete fixtures used by witnesses -/

/-- A plain five-byte regular-file info. -/
def fi5 : StaticFileInfo := ⟨"f", 5, 420, 9, false⟩

/-- A read-only remote file whose info is latched and whose stream is not
yet opened. -/
def roStated : ROFile Unit := ⟨"f", fi5, Option.some fi5, Option.none⟩

/-- A read-only remote file whose byte stream has been opened. -/
def roStreaming : ROFile Unit := ⟨"f", fi5, Option.some fi5, Option.some ()⟩

/-- A WebDAV client whose calls all succeed. -/
def davOK : DavClient Unit := ⟨fun _ => Except.ok fi5, fun _ => Except.ok ()⟩

/-! ## Well-formedness: the two children views agree

`childrenMap` has distinct keys (it is a Go map) and `children` is the
rebuilt sorted slice. Every mutation re-establishes this. -/

/-- The parallel-structure invariant of a composite. -/
def wf {α : Type} (st : CState α) : Prop :=
  (keysOf st.childrenMap).Nodup ∧ st.children = rebuildChildren st.childrenMap

theorem mem_keys_mapSet {α : Type} (m : List (String × α)) (k a : String)
    (v : α) : a ∈ keysOf (mapSet m k v) ↔ a = k ∨ a ∈ keysOf m := by
  induction m with
  | nil => simp [mapSet, keysOf]
  | cons p rest ih =>
    obtain ⟨k', v'⟩ := p
    simp only [keysOf] at ih ⊢
    by_cases h : k' = k
    · subst h
      simp [mapSet]
    · simp only [mapSet, if_neg h, List.map_cons, List.mem_cons, ih]
      tauto

theorem nodup_keys_mapSet {α : Type} (m : List (String × α)) (k : String)
    (v : α) (h : (keysOf m).Nodup) : (keysOf (mapSet m k v)).Nodup := by
  induction m with
  | nil => simp [mapSet, keysOf]
  | cons p rest ih =>
    obtain ⟨k', v'⟩ := p
    simp only [keysOf, List.map_cons, List.nodup_cons] at h
    by_cases hpk : k' = k
    · subst hpk
      simp only [mapSet, if_true, eq_self_iff_true, keysOf, List.map_cons,
        List.nodup_cons, ite_true]
      exact h
    · simp only [mapSet, if_neg hpk, keysOf, List.map_cons, List.nodup_cons]
      refine ⟨?_, ih h.2⟩
      intro hc
      rcases (mem_keys_mapSet rest k k' v).1 hc with hc | hc
      · exact hpk hc
      · exact h.1 hc

theorem nodup_keys_mapDel {α : Type} (m : List (String × α)) (k : String)
    (h : (keysOf m).Nodup) : (keysOf (mapDel m k)).Nodup := by
  have hsub : List.Sublist (mapDel m k) m := List.filter_sublist m
  exact (hsub.map Prod.fst).nodup h

theorem nodup_keys_foldl_mapSet {α : Type} (l : List (String × α))
    (m : List (String × α)) (h : (keysOf m).Nodup) :
    (keysOf (l.foldl (fun m p => mapSet m p.1 p.2) m)).Nodup := by
  induction l generalizing m with
  | nil => exact h
  | cons p rest ih => exact ih _ (nodup_keys_mapSet m p.1 p.2 h)

theorem nodup_keys_mapOfList {α : Type} (l : List (String × α)) :
    (keysOf (mapOfList l)).Nodup :=
  nodup_keys_foldl_mapSet l [] (by simp [keysOf])

theorem mem_keys_foldl_mapSet {α : Type} (l : List (String × α))
    (m : List (String × α)) (a : String) :
    a ∈ keysOf (l.foldl (fun m p => mapSet m p.1 p.2) m) ↔
      a ∈ keysOf m ∨ a ∈ keysOf l := by
  induction l generalizing m with
  | nil => simp [keysOf]
  | cons p rest ih =>
    rw [List.foldl_cons, ih, mem_keys_mapSet]
    simp only [keysOf, List.map_cons, List.mem_cons]
    tauto

theorem mem_keys_mapOfList {α : Type} (l : List (String × α)) (a : String) :
    a ∈ keysOf (mapOfList l) ↔ a ∈ keysOf l := by
  rw [mapOfList, mem_keys_foldl_mapSet]
  simp [keysOf]

/-- The names in the rebuilt slice are a permutation of the map's keys. -/
theorem rebuild_names_perm {α : Type} (m : List (String × α)) :
    List.Perm ((rebuildChildren m).map Child.name) (keysOf m) := by
  have h := List.perm_insertionSort childLE
    (m.map (fun p : String × α => (⟨p.1, p.2⟩ : Child α)))
  have h2 := h.map Child.name
  rw [List.map_map] at h2
  exact h2

/-- The executable comparator agrees with the (lexicographic) strict order
on character lists. -/
theorem charListLtB_lt (as : List Char) : ∀ bs,
    charListLtB as bs = true ↔ as < bs := by
  induction as with
  | nil =>
    intro bs
    cases bs with
    | nil =>
      constructor
      · intro h
        simp [charListLtB] at h
      · intro h
        cases h
    | cons b bs =>
      simp only [charListLtB]
      constructor
      · intro _
        exact List.Lex.nil
      · intro _
        trivial
  | cons a as ih =>
    intro bs
    cases bs with
    | nil =>
      constructor
      · intro h
        simp [charListLtB] at h
      · intro h
        cases h
    | cons b bs =>
      by_cases hab : a < b
      · simp only [charListLtB, if_pos hab]
        constructor
        · intro _
          exact List.Lex.rel hab
        · intro _
          trivial
      · by_cases hba : b < a
        · simp only [charListLtB, if_neg hab, if_pos hba]
          constructor
          · intro h
            exact Bool.noConfusion h
          · intro h
            cases h with
            | cons h' => exact absurd hba (lt_irrefl _)
            | rel h' => exact absurd h' hab
        · have heq : a = b := le_antisymm (not_lt.mp hba) (not_lt.mp hab)
          subst heq
          simp only [charListLtB, if_neg hab, if_neg hba]
          rw [ih bs]
          constructor
          · intro h
            exact List.Lex.cons h
          · intro h
            cases h with
            | cons h' => exact h'
            | rel h' => exact absurd h' hab

/-- The executable comparator agrees with `≤` on `String`. -/
theorem strLeB_le (a b : String) : strLeB a b = true ↔ a ≤ b := by
  have h2 : charListLtB b.data a.data = true ↔ b.data < a.data :=
    charListLtB_lt b.data a.data
  have h4 : b < a ↔ b.data < a.data := String.lt_iff_toList_lt
  have h3 : a ≤ b ↔ ¬ b < a := Iff.rfl
  rw [h3, h4, ← h2]
  simp [strLeB]

theorem childLE_le {α : Type} (a b : Child α) :
    childLE a b ↔ a.name ≤ b.name :=
  strLeB_le a.name b.name

theorem childLE_total {α : Type} (a b : Child α) :
    childLE a b ∨ childLE b a := by
  rw [childLE_le, childLE_le]
  exact le_total a.name b.name

theorem childLE_trans {α : Type} (a b c : Child α)
    (h1 : childLE a b) (h2 : childLE b c) : childLE a c := by
  rw [childLE_le] at h1 h2 ⊢
  exact le_trans h1 h2

/-- The rebuilt slice is sorted by name. -/
theorem rebuild_sorted {α : Type} (m : List (String × α)) :
    List.Sorted childLE (rebuildChildren m) :=
  @List.sorted_insertionSort (Child α) childLE _
    ⟨childLE_total⟩ ⟨fun a b c => childLE_trans a b c⟩ _

theorem pairwise_lt_of_le_nodup {l : List String}
    (hle : l.Pairwise (· ≤ ·)) (hne : l.Nodup) : l.Pairwise (· < ·) := by
  induction l with
  | nil => exact List.Pairwise.nil
  | cons a t ih =>
    rcases hle with _ | ⟨ha, ht⟩
    rcases hne with _ | ⟨hna, hnt⟩
    exact List.Pairwise.cons
      (fun b hb => lt_of_le_of_ne (ha b hb) (hna b hb)) (ih ht hnt)

/-- In a well-formed composite the child names are strictly increasing. -/
theorem wf_children_names_lt {α : Type} {st : CState α} (h : wf st) :
    (st.children.map Child.name).Pairwise (· < ·) := by
  have hsorted : List.Sorted childLE st.children := h.2 ▸ rebuild_sorted _
  have hle' : st.children.Pairwise (fun a b => a.name ≤ b.name) :=
    hsorted.imp (fun hab => (childLE_le _ _).mp hab)
  have hle : (st.children.map Child.name).Pairwise (· ≤ ·) :=
    List.pairwise_map.mpr hle'
  have hnodup : (st.children.map Child.name).Nodup := by
    have hperm : List.Perm (st.children.map Child.name) (keysOf st.childrenMap) :=
      h.2 ▸ rebuild_names_perm _
    exact hperm.nodup_iff.mpr h.1
  exact pairwise_lt_of_le_nodup hle hnodup

/-- In a well-formed composite, slice and map have the same size. -/
theorem wf_children_length {α : Type} {st : CState α} (h : wf st) :
    st.children.length = st.childrenMap.length := by
  have hperm : List.Perm (st.children.map Child.name) (keysOf st.childrenMap) :=
    h.2 ▸ rebuild_names_perm _
  have := hperm.length_eq
  simpa [keysOf] using this

theorem wf_newCFS {α : Type} (b : Bool) : wf (newCFS α b) := by
  constructor
  · simp [newCFS, keysOf]
  · simp [newCFS, rebuildChildren, List.insertionSort]

theorem wf_addChild {α : Type} {st : CState α} (h : wf st) (name : String)
    (fs : α) : wf (addChild st name fs) :=
  ⟨nodup_keys_mapSet _ _ _ h.1, rfl⟩

theorem wf_removeChild {α : Type} (closable : α → Bool) {st : CState α}
    (h : wf st) (name : String) : wf (removeChild closable st name).1 :=
  ⟨nodup_keys_mapDel _ _ h.1, rfl⟩

theorem wf_setChildren {α : Type} (closable : α → Bool) (st : CState α)
    (children : List (String × α)) : wf (setChildren closable st children).1 :=
  ⟨nodup_keys_mapOfList _, rfl⟩

theorem wf_applyMut {α : Type} (closable : α → Bool) {st : CState α}
    (h : wf st) (m : Mut α) : wf (applyMut closable st m) := by
  cases m with
  | add name fs => exact wf_addChild h name fs
  | rem name => exact wf_removeChild closable h name
  | set children => exact wf_setChildren closable st children

theorem wf_applyMuts {α : Type} (closable : α → Bool) {st : CState α}
    (h : wf st) (ms : List (Mut α)) : wf (applyMuts closable st ms) := by
  induction ms generalizing st with
  | nil => exact h
  | cons m rest ih => exact ih (wf_applyMut closable h m)

theorem mem_keys_filter {α : Type} (l : List (String × α)) (q : String → Bool)
    (a : String) :
    a ∈ keysOf (l.filter (fun p => q p.1)) ↔ a ∈ keysOf l ∧ q a = true := by
  induction l with
  | nil => simp [keysOf]
  | cons p rest ih =>
    obtain ⟨k', v'⟩ := p
    simp only [keysOf] at ih ⊢
    by_cases hq : q k' = true
    · rw [List.filter_cons_of_pos (by simpa using hq)]
      simp only [List.map_cons, List.mem_cons]
      constructor
      · rintro (rfl | hm)
        · exact ⟨Or.inl rfl, hq⟩
        · obtain ⟨hm', hqa⟩ := ih.1 hm
          exact ⟨Or.inr hm', hqa⟩
      · rintro ⟨rfl | hm, hqa⟩
        · exact Or.inl rfl
        · exact Or.inr (ih.2 ⟨hm, hqa⟩)
    · rw [List.filter_cons_of_neg (by simpa using hq)]
      simp only [List.map_cons, List.mem_cons]
      constructor
      · intro hm
        obtain ⟨hm', hqa⟩ := ih.1 hm
        exact ⟨Or.inr hm', hqa⟩
      · rintro ⟨rfl | hm, hqa⟩
        · exact absurd hqa hq
        · exact ih.2 ⟨hm, hqa⟩

/-! ## Claim theorems -/

/-- Claim C1: for every incoming request whose method is write-class (one of
PUT, POST, COPY, LOCK, UNLOCK, MKCOL, MOVE, PROPPATCH) and whose first path
segment names a share `S`, the remote gateway's `ServeHTTP` responds 404
when the request's permissions map `S` to `None`, 403 when they map `S` to
`ReadOnly`, and dispatches to the (per-request composite) filesystem when
they map `S` to `ReadWrite`. -/
theorem serveHTTP_write_gating {α : Type} (closable : α → Bool)
    (permissions : Permissions) (fileSystems : List (String × α))
    (method urlPath S : String) (rest : List String)
    (hw : writeMethods method = true)
    (hseg : pathutilSplit urlPath = S :: rest) :
    (permissions S = Permission.none →
      serveHTTP closable permissions fileSystems method urlPath
        = ServeResult.httpError 404) ∧
    (permissions S = Permission.readOnly →
      serveHTTP closable permissions fileSystems method urlPath
        = ServeResult.httpError 403) ∧
    (permissions S = Permission.readWrite →
      ∃ cfs, serveHTTP closable permissions fileSystems method urlPath
        = ServeResult.dispatch cfs) := by
  refine ⟨fun h => ?_, fun h => ?_, fun h => ?_⟩ <;>
    simp [serveHTTP, hw, hseg, h]

/-- Witness for C1 at a concrete input: method PUT, path `/alpha/file`, one
installed share `alpha` with permission `ReadOnly` yields 403. -/
theorem serveHTTP_write_gating_witness :
    serveHTTP (fun _ : Unit => true) (fun _ => Permission.readOnly)
      [("alpha", ())] "PUT" "/alpha/file" = ServeResult.httpError 403 :=
  (serveHTTP_write_gating (fun _ : Unit => true) (fun _ => Permission.readOnly)
    [("alpha", ())] "PUT" "/alpha/file" "alpha" ["file"]
    (by decide) (by decide)).2.1 rfl

/-- Claim C2: for every request handled by the remote gateway's `ServeHTTP`,
the set of share names installed as children of the per-request composite
(hence visible when listing its root) is exactly the set of installed shares
`s` for which `permissions.For(s)` is not `None`. Stated for both views of
the children (the map and the sorted slice that root listing shows). -/
theorem serveHTTP_dispatch_children {α : Type} (closable : α → Bool)
    (permissions : Permissions) (fileSystems : List (String × α))
    (method urlPath : String) (cfs : CState α)
    (h : serveHTTP closable permissions fileSystems method urlPath
      = ServeResult.dispatch cfs) (s : String) :
    (s ∈ keysOf cfs.childrenMap ↔
      s ∈ keysOf fileSystems ∧ permissions s ≠ Permission.none) ∧
    (s ∈ cfs.children.map Child.name ↔
      s ∈ keysOf fileSystems ∧ permissions s ≠ Permission.none) := by
  have hc : cfs = (setChildren closable (newCFS α true)
      (fileSystems.filter (fun p => !(permissions p.1 = Permission.none : Bool)))).1 := by
    by_cases hw : writeMethods method
    · simp only [serveHTTP, hw, if_true] at h
      cases hp : permissions ((pathutilSplit urlPath).headD "") <;>
        rw [hp] at h <;> first
          | exact ServeResult.noConfusion h
          | (injection h with h'; exact h'.symm)
    · simp only [serveHTTP, hw, Bool.false_eq_true, if_false] at h
      injection h with h'
      exact h'.symm
  subst hc
  have hkeys : ∀ a, a ∈ keysOf (mapOfList (fileSystems.filter
      (fun p => !(permissions p.1 = Permission.none : Bool)))) ↔
      a ∈ keysOf fileSystems ∧ permissions a ≠ Permission.none := by
    intro a
    rw [mem_keys_mapOfList]
    exact (mem_keys_filter fileSystems
      (fun s => !(permissions s = Permission.none : Bool)) a).trans (by simp)
  constructor
  · exact hkeys s
  · have hperm : List.Perm
        (((setChildren closable (newCFS α true)
          (fileSystems.filter (fun p => !(permissions p.1 = Permission.none : Bool)))).1).children.map Child.name)
        (keysOf (mapOfList (fileSystems.filter
          (fun p => !(permissions p.1 = Permission.none : Bool))))) :=
      rebuild_names_perm _
    rw [hperm.mem_iff]
    exact hkeys s

/-- Witness for C2 at a concrete input: shares `alpha` (ReadOnly) and
`beta` (None); the dispatched composite contains `alpha` and not `beta`. -/
theorem serveHTTP_dispatch_children_witness :
    ("alpha" ∈ keysOf ((setChildren (fun _ : Unit => true) (newCFS Unit true)
        ([("alpha", ()), ("beta", ())].filter
          (fun p => !((fun s => if s = "alpha" then Permission.readOnly
            else Permission.none) p.1 = Permission.none : Bool)))).1).childrenMap ↔
      "alpha" ∈ keysOf [("alpha", ()), ("beta", ())] ∧
        (fun s => if s = "alpha" then Permission.readOnly else Permission.none)
          "alpha" ≠ Permission.none) :=
  (serveHTTP_dispatch_children (fun _ : Unit => true)
    (fun s => if s = "alpha" then Permission.readOnly else Permission.none)
    [("alpha", ()), ("beta", ())] "GET" "/alpha/file" _ rfl "alpha").1

/-- The `LoadChildren` loader yields one entry per child, carrying the
child's name, in slice order. -/
theorem loadChildren_names {α : Type}
    (stat : α → String → Except Err StaticFileInfo) (b : Bool)
    (children : List (Child α)) (now : Nat) (infos : List StaticFileInfo)
    (h : loadChildren stat b children now = Except.ok infos) :
    infos.map StaticFileInfo.named = children.map Child.name := by
  induction children generalizing infos with
  | nil =>
    unfold loadChildren at h
    injection h with h'
    subst h'
    rfl
  | cons c rest ih =>
    unfold loadChildren at h
    by_cases hb : b
    · rw [if_pos hb] at h
      cases hs : stat c.fs "/" with
      | error e => rw [hs] at h; exact Except.noConfusion h
      | ok fi =>
        rw [hs] at h
        cases hrest : loadChildren stat b rest now with
        | error e => rw [hrest] at h; exact Except.noConfusion h
        | ok cis =>
          rw [hrest] at h
          injection h with h'
          subst h'
          simp [ih cis hrest, rewrapInfo]
    · rw [if_neg hb] at h
      cases hrest : loadChildren stat b rest now with
      | error e => rw [hrest] at h; exact Except.noConfusion h
      | ok cis =>
        rw [hrest] at h
        injection h with h'
        subst h'
        simp [ih cis hrest, ReadOnlyDirInfo]

/-- Claim C3: for every composite reachable by any sequence of `AddChild`,
`RemoveChild` and `SetChildren` mutations, opening the root and reading its
directory yields exactly one entry per child — as many entries as there are
children (equivalently, map bindings) — and their names are in strict
lexicographic ascending order. -/
theorem composite_root_listing_sorted {α β : Type} (closable : α → Bool)
    (b : Bool) (ms : List (Mut α))
    (stat : α → String → Except Err StaticFileInfo)
    (opn : α → String → Except Err β) (now : Nat)
    (di : StaticFileInfo) (listing : Except Err (List StaticFileInfo))
    (log : List ChildCall) (infos : List StaticFileInfo)
    (hopen : cfsOpenFile stat opn (applyMuts closable (newCFS α b) ms) "/" now
      = (Except.ok (OpenRes.rootDir di listing), log))
    (hlist : listing = Except.ok infos) :
    infos.length = (applyMuts closable (newCFS α b) ms).children.length ∧
    infos.length = (applyMuts closable (newCFS α b) ms).childrenMap.length ∧
    infos.map StaticFileInfo.named
      = (applyMuts closable (newCFS α b) ms).children.map Child.name ∧
    (infos.map StaticFileInfo.named).Pairwise (· < ·) := by
  have hwf : wf (applyMuts closable (newCFS α b) ms) :=
    wf_applyMuts closable (wf_newCFS b) ms
  set st := applyMuts closable (newCFS α b) ms with hst
  have hload : loadChildren stat st.statChildren st.children now
      = Except.ok infos := by
    have hroot : pathutilIsRoot "/" = true := rfl
    simp only [cfsOpenFile, hroot, if_true] at hopen
    cases hcs : cfsStat stat st "/" now with
    | mk res lg =>
      rw [hcs] at hopen
      cases res with
      | error e => simp at hopen
      | ok di' =>
        simp only [Prod.mk.injEq, Except.ok.injEq, OpenRes.rootDir.injEq]
          at hopen
        rw [hopen.1.2, hlist]
  have hnames : infos.map StaticFileInfo.named = st.children.map Child.name :=
    loadChildren_names stat st.statChildren st.children now infos hload
  have hlen : infos.length = st.children.length := by
    have := congrArg List.length hnames
    simpa using this
  refine ⟨hlen, ?_, hnames, ?_⟩
  · exact hlen.trans (wf_children_length hwf)
  · rw [hnames]
    exact wf_children_names_lt hwf

/-- Witness for C3 at a concrete input: children added as `b` then `a`; the
root listing has two entries named `a`, `b` in order. -/
theorem composite_root_listing_sorted_witness :
    ([ReadOnlyDirInfo "a" 7, ReadOnlyDirInfo "b" 7].length
      = (applyMuts (fun _ : Unit => true) (newCFS Unit false)
          [Mut.add "b" (), Mut.add "a" ()]).children.length) ∧
    ([ReadOnlyDirInfo "a" 7, ReadOnlyDirInfo "b" 7].length
      = (applyMuts (fun _ : Unit => true) (newCFS Unit false)
          [Mut.add "b" (), Mut.add "a" ()]).childrenMap.length) ∧
    ([ReadOnlyDirInfo "a" 7, ReadOnlyDirInfo "b" 7].map StaticFileInfo.named
      = (applyMuts (fun _ : Unit => true) (newCFS Unit false)
          [Mut.add "b" (), Mut.add "a" ()]).children.map Child.name) ∧
    (([ReadOnlyDirInfo "a" 7, ReadOnlyDirInfo "b" 7].map
        StaticFileInfo.named).Pairwise (· < ·)) :=
  composite_root_listing_sorted (fun _ : Unit => true) false
    [Mut.add "b" (), Mut.add "a" ()]
    (fun _ _ => Except.ok (ReadOnlyDirInfo "x" 0))
    (fun _ _ => Except.ok 0) 7 (ReadOnlyDirInfo "/" 7)
    (Except.ok [ReadOnlyDirInfo "a" 7, ReadOnlyDirInfo "b" 7]) []
    [ReadOnlyDirInfo "a" 7, ReadOnlyDirInfo "b" 7] rfl rfl

/-- Claim C4: for every non-root path whose first component does not name a
current child, both routed operations present in the sources (`Stat` and
`OpenFile`) fail with `os.ErrNotExist` and the call log is empty: no
operation was invoked on any child, whatever the children's behaviour. -/
theorem composite_unknown_child_not_found {α β : Type}
    (stat : α → String → Except Err StaticFileInfo)
    (opn : α → String → Except Err β) (st : CState α)
    (name first : String) (rest : List String) (now : Nat)
    (hroot : pathutilIsRoot name = false)
    (hsplit : pathutilSplit name = first :: rest)
    (hmiss : mapGet st.childrenMap first = Option.none) :
    cfsStat stat st name now = (Except.error Err.notExist, []) ∧
    cfsOpenFile stat opn st name now = (Except.error Err.notExist, []) := by
  constructor <;> simp [cfsStat, cfsOpenFile, pathToChild, hroot, hsplit, hmiss]

/-- Witness for C4 at a concrete input: a composite with single child `a`,
path `/zz/x`. -/
theorem composite_unknown_child_not_found_witness :
    cfsStat (fun (_ : Unit) _ => Except.ok (ReadOnlyDirInfo "x" 0))
      (addChild (newCFS Unit true) "a" ()) "/zz/x" 0
      = (Except.error Err.notExist, []) ∧
    cfsOpenFile (fun (_ : Unit) _ => Except.ok (ReadOnlyDirInfo "x" 0))
      (fun (_ : Unit) _ => Except.ok 0)
      (addChild (newCFS Unit true) "a" ()) "/zz/x" 0
      = (Except.error Err.notExist, []) :=
  composite_unknown_child_not_found
    (fun (_ : Unit) _ => Except.ok (ReadOnlyDirInfo "x" 0))
    (fun (_ : Unit) _ => Except.ok 0)
    (addChild (newCFS Unit true) "a" ()) "/zz/x" "zz" ["x"] 0
    (by decide) (by decide) (by decide)

/-- Counterexample to claim C5 as stated: on the single-component path `/a`
with `StatChildren` enabled, the composite's `Stat` passes the empty string
`""` — the rejoined empty remainder from `path.Join` — to the child's
`Stat`, not the child's root path `"/"`. -/
theorem composite_stat_child_path_counterexample :
    (cfsStat (fun (_ : Unit) _ => Except.ok (ReadOnlyDirInfo "x" 0))
      (addChild (newCFS Unit true) "a" ()) "/a" 0).2 = [("a", "")] ∧
    ¬ (cfsStat (fun (_ : Unit) _ => Except.ok (ReadOnlyDirInfo "x" 0))
      (addChild (newCFS Unit true) "a" ()) "/a" 0).2 = [("a", "/")] := by
  constructor
  · rfl
  · decide

/-- Claim C5 as amended: for a path of exactly one component naming an
existing child, the composite forwards to that child — `OpenFile` passes the
child's root path `"/"` (the code special-cases the empty remainder), while
`Stat` with `StatChildren` enabled passes the raw rejoined remainder, i.e.
the empty string `""`, to the child's `Stat`, rewrapping a successful result
under the full name. -/
theorem composite_single_component_forwarding {α β : Type}
    (stat : α → String → Except Err StaticFileInfo)
    (opn : α → String → Except Err β) (st : CState α)
    (name first : String) (fs : α) (now : Nat)
    (hroot : pathutilIsRoot name = false)
    (hsplit : pathutilSplit name = [first])
    (hfound : mapGet st.childrenMap first = Option.some fs) :
    cfsOpenFile stat opn st name now
      = ((opn fs "/").map OpenRes.childFile, [(first, "/")]) ∧
    (st.statChildren = true →
      cfsStat stat st name now
        = ((stat fs "").map (rewrapInfo name), [(first, "")])) := by
  have hjoin : joinComponents ([] : List String) = "" := rfl
  constructor
  · cases h : opn fs "/" <;>
      simp [cfsOpenFile, hroot, pathToChild, hsplit, hfound, h, Except.map]
  · intro hsc
    cases h : stat fs "" <;>
      simp [cfsStat, hroot, pathToChild, hsplit, hfound, hsc, hjoin, h,
        Except.map]

/-- Witness for the amended C5 at a concrete input: composite with child `a`
(`StatChildren` enabled), path `/a`. -/
theorem composite_single_component_forwarding_witness :
    cfsOpenFile (fun (_ : Unit) _ => Except.ok (ReadOnlyDirInfo "y" 3))
      (fun (_ : Unit) p => Except.ok p)
      (addChild (newCFS Unit true) "a" ()) "/a" 3
      = ((Except.ok "/").map OpenRes.childFile, [("a", "/")]) ∧
    cfsStat (fun (_ : Unit) _ => Except.ok (ReadOnlyDirInfo "y" 3))
      (addChild (newCFS Unit true) "a" ()) "/a" 3
      = ((Except.ok (ReadOnlyDirInfo "y" 3)).map (rewrapInfo "/a"),
         [("a", "")]) :=
  ⟨(composite_single_component_forwarding
      (fun (_ : Unit) _ => Except.ok (ReadOnlyDirInfo "y" 3))
      (fun (_ : Unit) p => Except.ok p)
      (addChild (newCFS Unit true) "a" ()) "/a" "a" () 3
      (by decide) (by decide) (by decide)).1,
   (composite_single_component_forwarding
      (fun (_ : Unit) _ => Except.ok (ReadOnlyDirInfo "y" 3))
      (fun (_ : Unit) p => Except.ok p)
      (addChild (newCFS Unit true) "a" ()) "/a" "a" () 3
      (by decide) (by decide) (by decide)).2 rfl⟩

/-- Claim C6: on a read-only remote file (whose lazy stat succeeds),
`Seek(0, SeekEnd)` succeeds returning the current size, `Seek(0, SeekStart)`
succeeds returning 0, every other `(offset, whence)` combination fails with
an error, and no successful third case exists. -/
theorem seek_only_two_positions {σ : Type} (translate : Err → Err)
    (client : DavClient σ) (f f' : ROFile σ)
    (hstat : statIfNecessary translate client f = Except.ok f') :
    roSeek translate client f 0 seekEnd = Except.ok ((curFI f').sized, f') ∧
    roSeek translate client f 0 seekStart = Except.ok (0, f') ∧
    (∀ offset whence r g,
      roSeek translate client f offset whence = Except.ok (r, g) →
      (whence = seekEnd ∧ offset = 0) ∨ (whence = seekStart ∧ offset = 0)) ∧
    (∀ offset whence, ¬(whence = seekEnd ∧ offset = 0) →
      ¬(whence = seekStart ∧ offset = 0) →
      ∃ e, roSeek translate client f offset whence = Except.error e) := by
  refine ⟨?_, ?_, ?_, ?_⟩
  · simp [roSeek, hstat, seekEnd, seekStart]
  · simp [roSeek, hstat, seekEnd, seekStart]
  · intro offset whence r g h
    by_cases h1 : whence = seekEnd ∧ offset = 0
    · exact Or.inl h1
    · by_cases h2 : whence = seekStart ∧ offset = 0
      · exact Or.inr h2
      · simp only [roSeek, hstat, if_neg h1, if_neg h2] at h
        exact Except.noConfusion h
  · intro offset whence h1 h2
    refine ⟨Err.pathError "seek" (curFI f').named "seek not supported", ?_⟩
    simp only [roSeek, hstat, if_neg h1, if_neg h2]

/-- Witness for C6 at a concrete input: a file of size 5 whose info is
already latched; seek-to-end yields 5 and seek-to-start yields 0. -/
theorem seek_only_two_positions_witness :
    roSeek id davOK roStated 0 seekEnd = Except.ok (5, roStated) ∧
    roSeek id davOK roStated 0 seekStart = Except.ok (0, roStated) :=
  ⟨(seek_only_two_positions id davOK roStated roStated rfl).1,
   (seek_only_two_positions id davOK roStated roStated rfl).2.1⟩

/-- Counterexample to claim C7 as stated: `SetChildren(M)` twice with the
same map `M = {"a" ↦ a closable filesystem}` — the second call closes the
very child it re-installs, so its closed-children list is not empty. (The
child filesystem type is `Bool`, recording whether the child implements
`io.Closer`.) -/
theorem setChildren_twice_closes_counterexample :
    (setChildren (fun b : Bool => b)
      ((setChildren (fun b : Bool => b) (newCFS Bool false) [("a", true)]).1)
      [("a", true)]).2 = [⟨"a", true⟩] := by
  decide

/-- Claim C7 as amended: `SetChildren(M)` followed by `SetChildren(M)`
leaves the composite in an observably equal (indeed equal) state, but the
second call does invoke the close capability of every displaced child —
which is exactly the set of closable children installed by the first call,
re-installed or not. -/
theorem setChildren_idempotent_state {α : Type} (closable : α → Bool)
    (st : CState α) (children : List (String × α)) :
    (setChildren closable (setChildren closable st children).1 children).1
      = (setChildren closable st children).1 ∧
    (setChildren closable (setChildren closable st children).1 children).2
      = (rebuildChildren (mapOfList children)).filter (fun c => closable c.fs) :=
  ⟨rfl, rfl⟩

/-- Counterexample to claim C8 as stated: `Close` never clears the latched
stream, so a second `Close` after a successful first one invokes the
underlying stream's `Close` again. -/
theorem close_twice_closes_stream_counterexample :
    (roClose (fun _ => Except.ok ()) roStreaming).2.1 = true ∧
    (roClose (fun _ => Except.ok ())
      ((roClose (fun _ => Except.ok ()) roStreaming).2.2)).2.1 = true := by
  constructor <;> rfl

/-- Claim C8 as amended: `Close` never mutates the file state; every call
(first or repeated) closes the underlying stream iff one was opened,
returning nil when none was opened and the stream's close result otherwise.
A repeated `Close` therefore behaves exactly like the first — including
invoking the stream's `Close` again when a stream was opened — rather than
skipping the stream close. -/
theorem close_closes_stream_iff_opened {σ : Type}
    (streamClose : σ → Except Err Unit) (f : ROFile σ) :
    (roClose streamClose f).2.2 = f ∧
    (roClose streamClose f).2.1 = f.readCloser.isSome ∧
    (f.readCloser = Option.none → (roClose streamClose f).1 = Except.ok ()) ∧
    (∀ s, f.readCloser = Option.some s →
      (roClose streamClose f).1 = streamClose s) ∧
    roClose streamClose ((roClose streamClose f).2.2)
      = roClose streamClose f := by
  cases hrc : f.readCloser <;>
    simp [roClose, hrc]

/-- Witness for the amended C8 at concrete inputs: with an opened stream the
state is unchanged, the stream close is invoked and its result returned;
with no stream opened `Close` returns nil. -/
theorem close_closes_stream_iff_opened_witness :
    (roClose (fun _ => Except.ok ()) roStreaming).2.2 = roStreaming ∧
    (roClose (fun _ => Except.ok ()) roStreaming).2.1 = true ∧
    (roClose (fun _ => Except.ok ()) roStreaming).1 = Except.ok () ∧
    (roClose (fun _ => Except.ok ()) roStated).1 = Except.ok () :=
  ⟨(close_closes_stream_iff_opened (fun _ => Except.ok ()) roStreaming).1,
   (close_closes_stream_iff_opened (fun _ => Except.ok ()) roStreaming).2.1,
   (close_closes_stream_iff_opened
      (fun _ => Except.ok ()) roStreaming).2.2.2.1 () rfl,
   (close_closes_stream_iff_opened
      (fun _ => Except.ok ()) roStated).2.2.1 rfl⟩

theorem roRead_keeps_latched {σ : Type} (translate : Err → Err)
    (client : DavClient σ) (streamRead : σ → Nat × Option Err × σ)
    (f : ROFile σ) (s : σ) (hs : f.readCloser = Option.some s) :
    (roRead translate client streamRead f).2.1.readCloser
      = Option.some ((streamRead s).2.2) ∧
    (roRead translate client streamRead f).2.2 = false := by
  simp [roRead, hs]

theorem roReadSeq_latched {σ : Type} (translate : Err → Err)
    (client : DavClient σ) (streamRead : σ → Nat × Option Err × σ) :
    ∀ (k : Nat) (f : ROFile σ) (s : σ), f.readCloser = Option.some s →
    (roReadSeq translate client streamRead f k).2 = 0 := by
  intro k
  induction k with
  | zero => intro f s hs; rfl
  | succ k ih =>
    intro f s hs
    obtain ⟨hrc', hflag⟩ :=
      roRead_keeps_latched translate client streamRead f s hs
    simp only [roReadSeq]
    rw [hflag, ih _ _ hrc']
    rfl

/-- Claim C9: `Read` opens the server's byte stream at most once. A read on
a latched file issues no `ReadStream` call and proceeds on the same stream;
the first read on an unlatched file issues the one `ReadStream` call and
latches the stream; a failed open returns the translated error with no
bytes read and no latched stream; and across any number of sequential reads
(when the open succeeds) at most one `ReadStream` call is issued in total. -/
theorem read_opens_stream_at_most_once {σ : Type} (translate : Err → Err)
    (client : DavClient σ) (streamRead : σ → Nat × Option Err × σ)
    (f : ROFile σ) :
    (∀ s, f.readCloser = Option.some s →
      roRead translate client streamRead f
        = (((streamRead s).1, (streamRead s).2.1),
           { f with readCloser := Option.some ((streamRead s).2.2) }, false)) ∧
    (∀ s, f.readCloser = Option.none →
      client.readStreamRes f.name = Except.ok s →
      roRead translate client streamRead f
        = (((streamRead s).1, (streamRead s).2.1),
           { f with readCloser := Option.some ((streamRead s).2.2) }, true)) ∧
    (∀ e, f.readCloser = Option.none →
      client.readStreamRes f.name = Except.error e →
      roRead translate client streamRead f
        = ((0, Option.some (translate e)), f, true)) ∧
    (∀ s, client.readStreamRes f.name = Except.ok s →
      ∀ k, (roReadSeq translate client streamRead f k).2 ≤ 1) := by
  refine ⟨?_, ?_, ?_, ?_⟩
  · intro s hs
    simp [roRead, hs]
  · intro s hrc hcs
    simp [roRead, hrc, hcs]
  · intro e hrc hcs
    simp [roRead, hrc, hcs]
  · intro s hcs k
    cases hrc : f.readCloser with
    | some s' =>
      have h0 := roReadSeq_latched translate client streamRead k f s' hrc
      omega
    | none =>
      cases k with
      | zero => exact Nat.zero_le 1
      | succ k =>
        have h2 : roRead translate client streamRead f
            = (((streamRead s).1, (streamRead s).2.1),
               { f with readCloser := Option.some ((streamRead s).2.2) },
               true) := by
          simp [roRead, hrc, hcs]
        have hrc' : (roRead translate client streamRead f).2.1.readCloser
            = Option.some ((streamRead s).2.2) := by
          rw [h2]
        have h3 := roReadSeq_latched translate client streamRead k
          ((roRead translate client streamRead f).2.1) _ hrc'
        simp only [roReadSeq]
        rw [h2] at h3 ⊢
        simp [h3]

/-- Witness for C9 at a concrete input: an unlatched file over a client that
serves the stream; the first read opens and latches, and three sequential
reads issue at most one open in total. -/
theorem read_opens_stream_at_most_once_witness :
    roRead id davOK (fun s => (1, Option.none, s)) roStated
      = ((1, Option.none),
         { roStated with readCloser := Option.some () }, true) ∧
    (roReadSeq id davOK (fun s => (1, Option.none, s)) roStated 3).2 ≤ 1 :=
  ⟨(read_opens_stream_at_most_once id davOK
      (fun s => (1, Option.none, s)) roStated).2.1 () rfl rfl,
   (read_opens_stream_at_most_once id davOK
      (fun s => (1, Option.none, s)) roStated).2.2.2 () rfl 3⟩

/-- Claim C10 evaluated at the failing input (this claim is a code bug):
with domain `d1` already installed in the local gateway's top-level
composite, `SetRemotes("d2", …)` — whose not-found branch installs the new
domain with `SetChildren` on a singleton map rather than `AddChild` —
removes the previously installed binding for `d1` and closes its composite,
contradicting the claimed frame property. -/
theorem setRemotes_wipes_other_domains :
    (getChild ((setRemotes (fun u : String => u) (fun _ => true)
        (newCFS (CState String) false) "d1" [("r1", "u1")]).1) "d1").isSome
      = true ∧
    (getChild ((setRemotes (fun u : String => u) (fun _ => true)
        ((setRemotes (fun u : String => u) (fun _ => true)
          (newCFS (CState String) false) "d1" [("r1", "u1")]).1)
        "d2" [("r2", "u2")]).1) "d1").isNone = true ∧
    ((setRemotes (fun u : String => u) (fun _ => true)
        ((setRemotes (fun u : String => u) (fun _ => true)
          (newCFS (CState String) false) "d1" [("r1", "u1")]).1)
        "d2" [("r2", "u2")]).2.map Child.name) = ["d1"] :=
  ⟨rfl, rfl, rfl⟩

end TailFS
